import Mathlib

/-!
Verification of the NHB_AD7124 driver core against its specification.

The repository ships only the example sketch
`examples/MultiSensorFast/MultiSensorFast.ino`; the library core it calls
(`NHB_AD7124.h` / `.cpp`) is not part of the visible sources.  Every
definition for the missing core is therefore modelled from the
specification, as marked in its doc comment, and checked for consistency
with how the example sketch calls it (argument shapes, channel layout,
post-read scaling).

Real numbers of the C++ code (`double`) are modelled as `ℚ`; 24-bit raw
ADC codes are `ℕ` values below `2^24`.
-/

namespace NHB_AD7124

/-- Modelled from the spec: error kinds of §7 (the library source defining
them is not in the visible tree). -/
inductive AdcError where
  | ConfigurationError
  | TransportError
  | TimeoutError
  | DesyncError
  | RangeError
  deriving DecidableEq, Repr

/-- Modelled from the spec: conversion-controller states of §4.3. -/
inductive CtrlState where
  | Idle
  | ConfiguringMode
  | SingleShotTriggered
  | SingleShotWaiting
  | ContinuousRunning
  | PowerDown
  deriving DecidableEq, Repr

/-! ## Scaling engine (§4.4)

The AD7124 is a 24-bit converter.  §4.4: `voltage = (rawCode −
midScaleOffset) / fullScaleCodes × referenceVoltage / gain`, where
bipolar codes are signed around mid-scale `2^23` and unipolar codes span
`0..2^24`. -/

/-- Modelled from the spec: mid-scale offset of the code-to-voltage map
(§4.4); `2^23` for bipolar setups, `0` for unipolar ones. -/
def midScaleOffset (bipolar : Bool) : ℕ :=
  if bipolar then 2 ^ 23 else 0

/-- Modelled from the spec: full-scale code count of the code-to-voltage
map (§4.4). -/
def fullScaleCodes (bipolar : Bool) : ℕ :=
  if bipolar then 2 ^ 23 else 2 ^ 24

/-- Modelled from the spec: code-to-voltage scaling (§4.4), the pure map
`(raw code, setup parameters) → voltage` of the missing library core. -/
def toVolts (code : ℕ) (vref gain : ℚ) (bipolar : Bool) : ℚ :=
  ((code : ℚ) - (midScaleOffset bipolar : ℚ)) / (fullScaleCodes bipolar : ℚ)
    * vref / gain

/-- Modelled from the spec: the inverse of the scaling formula (§8's
round-trip property), used to synthesize a raw code from a known voltage;
quantization is by rounding down to an integral code. -/
def fromVolts (v : ℚ) (vref gain : ℚ) (bipolar : Bool) : ℤ :=
  ⌊v * gain / vref * (fullScaleCodes bipolar : ℚ)⌋ + (midScaleOffset bipolar : ℤ)

/-- Code-to-voltage evaluated on an integer code (the synthesized codes of
the round-trip property live in `ℤ` before being clamped to the device
range). -/
def toVoltsInt (code : ℤ) (vref gain : ℚ) (bipolar : Bool) : ℚ :=
  ((code : ℚ) - (midScaleOffset bipolar : ℚ)) / (fullScaleCodes bipolar : ℚ)
    * vref / gain

/-- One code's quantization step (1 LSB) of a given configuration. -/
def lsbVolts (vref gain : ℚ) (bipolar : Bool) : ℚ :=
  vref / gain / (fullScaleCodes bipolar : ℚ)

/-! ## Thermocouple scaling (§4.4 `scaleTC`) -/

/-- Modelled from the spec: a thermocouple type bundles the type-specific
conversion between junction voltage (mV) and temperature (°C): an inverse
map `VtoT` (voltage to temperature) and a forward map `TtoV`
(temperature to equivalent junction voltage). -/
structure TcType where
  VtoT : ℚ → ℚ
  TtoV : ℚ → ℚ

/-- Modelled from the spec: the Type K thermocouple characterization used
by `scaleTC` (the sketch passes `Type_K`).  Coefficients are rational
approximations of the NIST ITS-90 Type K polynomials near 0 °C; both maps
pass through the reference-table point 0 mV ↔ 0 °C. -/
def Type_K : TcType where
  VtoT := fun e => (25083550 / 1000000 : ℚ) * e + (78601 / 1000000 : ℚ) * e ^ 2
  TtoV := fun t => (39450 / 1000000 : ℚ) * t + (2362 / 100000000 : ℚ) * t ^ 2

/-- Modelled from the spec (§4.4): thermocouple scaling — applies the
type-specific map converting junction voltage to temperature, then adds a
correction derived from the cold-junction temperature's own equivalent
junction voltage for that thermocouple type. -/
def scaleTC (v tcj : ℚ) (ty : TcType) : ℚ :=
  ty.VtoT v + ty.VtoT (ty.TtoV tcj)

/-! ## Conversion controller (§4.3)

The device side is a mock Bus Transport in the spec's own test style:
for continuous cadence, a stream of (channel tag, raw code) pairs as
retrieved at successive data-ready events; for single-conversion cadence,
a deterministic per-trigger code map. -/

/-- A retrieved sample: the device-reported channel identity tag and the
raw conversion code. -/
structure Reading where
  ch : ℕ
  raw : ℕ
  deriving DecidableEq, Repr

/-- Modelled from the spec (§4.3 continuous cadence): the collection loop
of the continuous-mode batched read.  `group` is the expected
enabled-channel group in hardware order, `es` the channels still expected
in the current pass, `acc` the samples collected so far for the in-flight
batch, `retries` the framing discards still allowed, and `samples` the
incoming stream.  Every incoming tag is validated against the expected
sequence position; on a mismatch the partial batch is discarded and
collection restarts from the next complete pass, consuming one retry;
exhausting the retry bound yields `DesyncError`.  An exhausted stream
models a data-ready that never asserts: `TimeoutError`. -/
def contReadAux (group es : List ℕ) (acc : List Reading) (retries : ℕ)
    (samples : List (ℕ × ℕ)) : Except AdcError (List Reading) :=
  match es, samples with
  | [], _ => .ok acc
  | _ :: _, [] => .error .TimeoutError
  | e :: es', (tag, code) :: rest =>
      if tag = e then
        contReadAux group es' (acc ++ [⟨tag, code⟩]) retries rest
      else
        match retries with
        | 0 => .error .DesyncError
        | r + 1 => contReadAux group group [] r rest

/-- Modelled from the spec (§4.3): the continuous-mode batched read —
collect exactly one valid sample per channel of `group` from the
free-running stream `samples`, with framing-discard bound `retryBound`. -/
def contRead (group : List ℕ) (retryBound : ℕ)
    (samples : List (ℕ × ℕ)) : Except AdcError (List Reading) :=
  contReadAux group group [] retryBound samples

/-- Modelled from the spec (§4.3): bounded polling of the data-ready
signal; `drdy i` is the signal at poll iteration `i`; returns the first
iteration at which it asserts, if any within `timeout` polls. -/
def pollDataReady (timeout : ℕ) (drdy : ℕ → Bool) : Option ℕ :=
  (List.range timeout).find? (fun i => drdy i)

/-- Modelled from the spec (§4.3): one single-shot read:
`SingleShotTriggered → SingleShotWaiting → Idle`.  The controller polls
data-ready with the bounded timeout; on ready it retrieves the tagged
sample and returns to `Idle`; on timeout it fails with `TimeoutError`,
returns no partial data, and likewise returns to `Idle`. -/
def singleShotRead (timeout : ℕ) (drdy : ℕ → Bool) (sample : ℕ × ℕ) :
    Except AdcError Reading × CtrlState :=
  match pollDataReady timeout drdy with
  | some _ => (.ok ⟨sample.1, sample.2⟩, .Idle)
  | none => (.error .TimeoutError, .Idle)

/-- Modelled from the spec: device state visible to the single-conversion
cadence — a deterministic per-channel code map (the spec's mock Bus
Transport), the channel register naming the conversion just triggered,
the data register, and the trace of issued triggers. -/
structure SingleConvDev where
  codes : ℕ → ℕ
  curCh : ℕ
  dataReg : ℕ
  triggers : List ℕ

/-- Modelled from the spec (§4.3): issue one explicit trigger restricted
to channel `c`; the device converts that channel and tags the result with
its identity. -/
def trigger (d : SingleConvDev) (c : ℕ) : SingleConvDev :=
  { d with curCh := c, dataReg := d.codes c, triggers := d.triggers ++ [c] }

/-- Retrieve the sample for the conversion just completed, tagged with
the device-reported channel identity. -/
def retrieve (d : SingleConvDev) : Reading :=
  ⟨d.curCh, d.dataReg⟩

/-- Modelled from the spec (§4.3 single-conversion cadence): for each
requested channel in turn, trigger a conversion restricted to that
channel, wait for ready, record the sample. -/
def singleConvBatchRead (chans : List ℕ) (d : SingleConvDev) :
    List Reading × SingleConvDev :=
  match chans with
  | [] => ([], d)
  | c :: cs =>
      let d' := trigger d c
      let r := retrieve d'
      let p := singleConvBatchRead cs d'
      (r :: p.1, p.2)

/-! ## Setup registry, channel table and the public read API (§4.1, §4.2, §6) -/

/-- Modelled from the spec: analog input pin identifiers — the analog
inputs plus the internal-temperature-sensor and AVSS/ground
pseudo-inputs (§4.2). -/
inductive Pin where
  | AIN (n : ℕ)
  | TEMP
  | AVSS
  deriving DecidableEq, Repr

/-- Modelled from the spec: validity of a pin identifier against the
device's available analog input set. -/
def Pin.valid : Pin → Bool
  | .AIN n => n < 16
  | .TEMP => true
  | .AVSS => true

/-- Device input-select code of a pin (AINx → x; the
internal-temperature-sensor and AVSS pseudo-inputs use the codes past the
analog inputs). -/
def Pin.code : Pin → ℕ
  | .AIN n => n
  | .TEMP => 16
  | .AVSS => 17

/-- A bus transaction of the register-oriented serial transport (§6). -/
inductive BusTx where
  | wr (addr val : ℕ)
  | rd (addr : ℕ)
  deriving DecidableEq, Repr

/-- Modelled from the spec: one Setup of the Setup Registry — the
parameters the Scaling Engine consumes: reference voltage, gain,
polarity (§3). -/
structure AdcSetup where
  refV : ℚ
  gain : ℚ
  bipolar : Bool
  deriving DecidableEq, Repr

/-- Modelled from the spec: one Channel Table entry (§3). -/
structure AdcChannel where
  enabled : Bool
  setupIdx : ℕ
  ainp : Pin
  ainm : Pin
  deriving DecidableEq, Repr

/-- The disabled default channel entry. -/
def AdcChannel.off : AdcChannel :=
  ⟨false, 0, .AVSS, .AVSS⟩

/-- Modelled from the spec: the driver state — Setup Registry, Channel
Table and the trace of bus transactions issued (the spec's
transaction-counting mock Transport). -/
structure Ad7124 where
  setups : ℕ → AdcSetup
  channels : ℕ → AdcChannel
  log : List BusTx

/-- The 16-bit channel register image written on a successful
`setChannel`: enable bit, setup select, positive and negative input
selects. -/
def encodeChannelReg (enabled : Bool) (setupIdx : ℕ) (ainp ainm : Pin) : ℕ :=
  (if enabled then 2 ^ 15 else 0) + setupIdx * 2 ^ 12 + ainp.code * 2 ^ 5 + ainm.code

/-- Modelled from the spec (§4.2): `setChannel` validates the channel
index against [0,16), the setup index against the Setup Registry's valid
range [0,8) and the pin identifiers against the available input set; on
success it stores the entry and writes the channel register over the bus;
on failure it returns `ConfigurationError` having performed zero bus
transactions. -/
def setChannel (st : Ad7124) (ch setupIdx : ℕ) (ainp ainm : Pin)
    (enabled : Bool) : Except AdcError Unit × Ad7124 :=
  if ch < 16 ∧ setupIdx < 8 ∧ ainp.valid ∧ ainm.valid then
    (.ok (),
      { st with
        channels := fun j =>
          if j = ch then ⟨enabled, setupIdx, ainp, ainm⟩ else st.channels j,
        log := st.log ++ [.wr (9 + ch) (encodeChannelReg enabled setupIdx ainp ainm)] })
  else
    (.error .ConfigurationError, st)

/-- The enabled channels of the Channel Table, in hardware channel-index
order (the order the device's internal sequencer free-runs through). -/
def enabledChans (st : Ad7124) : List ℕ :=
  (List.range 16).filter (fun i => (st.channels i).enabled)

/-- A filled result-buffer slot of the public read API: channel identity
and scaled value (matching the sketch's `readings[i].ch` /
`readings[i].value`). -/
structure Ad7124_Readings where
  ch : ℕ
  value : ℚ
  deriving DecidableEq, Repr

/-- Modelled from the spec: the per-channel scaling step of `readVolts` —
a channel whose positive input is the internal temperature sensor keeps
its raw ADC counts (the sketch's note: the on-chip temperature sensor is
returned as raw adc counts because it is not a voltage measurement);
every other channel's code is scaled to volts with its setup's reference,
gain and polarity. -/
def scaleReading (st : Ad7124) (r : Reading) : Ad7124_Readings :=
  let c := st.channels r.ch
  if c.ainp = .TEMP then
    ⟨r.ch, (r.raw : ℚ)⟩
  else
    let s := st.setups c.setupIdx
    ⟨r.ch, toVolts r.raw s.refV s.gain s.bipolar⟩

/-- Modelled from the spec and the sketch's call
`adc.readVolts(readings, CH_COUNT)`: the multi-channel batched `readVolts`
of the public API takes a result buffer and a count — no channel-identity
list.  In single-conversion cadence it triggers each of the first `count`
enabled channels in turn (hardware channel-index order) and scales each
retrieved sample into its slot. -/
def readVolts (st : Ad7124) (codes : ℕ → ℕ) (count : ℕ) :
    List Ad7124_Readings :=
  ((singleConvBatchRead ((enabledChans st).take count)
      ⟨codes, 0, 0, []⟩).1).map (scaleReading st)

/-- The batched read as the spec's interface section words it (§6): a
caller-supplied result buffer and channel-identity list.  Stated for
comparison with `readVolts`, the form the example sketch actually calls. -/
def readVoltsChanList (st : Ad7124) (codes : ℕ → ℕ) (chans : List ℕ) :
    List Ad7124_Readings :=
  ((singleConvBatchRead chans ⟨codes, 0, 0, []⟩).1).map (scaleReading st)

/-- The blank driver state: nothing configured, no bus traffic. -/
def initState : Ad7124 :=
  ⟨fun _ => ⟨5 / 2, 1, true⟩, fun _ => AdcChannel.off, []⟩

/-- The configuration the example sketch builds in `setup()`
(MultiSensorFast.ino lines 104–127): setups 0–3, then channels 0–5 via
`setChannel`. -/
def exampleState : Ad7124 :=
  let st0 : Ad7124 :=
    ⟨fun s =>
        if s = 0 then ⟨5 / 2, 128, true⟩
        else if s = 1 then ⟨5 / 2, 32, true⟩
        else if s = 2 then ⟨5 / 2, 1, false⟩
        else if s = 3 then ⟨5 / 2, 1, true⟩
        else ⟨5 / 2, 1, true⟩,
      fun _ => AdcChannel.off, []⟩
  let st1 := (setChannel st0 0 0 (.AIN 0) (.AIN 1) true).2
  let st2 := (setChannel st1 1 1 (.AIN 2) (.AIN 3) true).2
  let st3 := (setChannel st2 2 1 (.AIN 4) (.AIN 5) true).2
  let st4 := (setChannel st3 3 2 (.AIN 6) .AVSS true).2
  let st5 := (setChannel st4 4 2 (.AIN 7) .AVSS true).2
  (setChannel st5 5 3 .TEMP .AVSS true).2

/-! ## Theorems -/

/-- C6: for every valid (gain, reference, polarity) triple the
code-to-voltage function equals
`(rawCode − midScaleOffset) / fullScaleCodes × referenceVoltage / gain`,
is strictly monotonic in the raw code, and maps the mid-scale code
`2^23` to 0 V in bipolar configurations. -/
theorem toVolts_formula_mono_midscale (vref gain : ℚ) (bipolar : Bool)
    (hv : 0 < vref) (hg : 0 < gain) :
    (∀ code : ℕ, toVolts code vref gain bipolar
        = ((code : ℚ) - (midScaleOffset bipolar : ℚ)) / (fullScaleCodes bipolar : ℚ)
            * vref / gain)
    ∧ (∀ c₁ c₂ : ℕ, c₁ < c₂ →
        toVolts c₁ vref gain bipolar < toVolts c₂ vref gain bipolar)
    ∧ toVolts (2 ^ 23) vref gain true = 0 := by
  have hF : (0 : ℚ) < (fullScaleCodes bipolar : ℚ) := by
    cases bipolar <;> norm_num [fullScaleCodes]
  refine ⟨fun _ => rfl, fun c₁ c₂ h => ?_, ?_⟩
  · unfold toVolts
    gcongr
  · norm_num [toVolts, midScaleOffset]

/-- Witness for C6 at the load-cell setup of the sketch:
vref = 2.5 V, gain = 128, bipolar. -/
theorem toVolts_formula_mono_midscale_witness :
    (0 : ℚ) < 5 / 2 ∧ (0 : ℚ) < 128
    ∧ (∀ c₁ c₂ : ℕ, c₁ < c₂ →
        toVolts c₁ (5 / 2) 128 true < toVolts c₂ (5 / 2) 128 true)
    ∧ toVolts (2 ^ 23) (5 / 2) 128 true = 0 :=
  ⟨by norm_num, by norm_num,
    (toVolts_formula_mono_midscale (5 / 2) 128 true (by norm_num) (by norm_num)).2.1,
    (toVolts_formula_mono_midscale (5 / 2) 128 true (by norm_num) (by norm_num)).2.2⟩

/-- C7: a raw code synthesized from a voltage via the inverse of the
scaling formula, when in the characterized range of the configuration,
scales back to the original voltage within one code's quantization
error. -/
theorem toVolts_fromVolts_roundTrip (v vref gain : ℚ) (bipolar : Bool)
    (hv : 0 < vref) (hg : 0 < gain)
    (hlo : 0 ≤ fromVolts v vref gain bipolar)
    (hhi : fromVolts v vref gain bipolar < 2 ^ 24) :
    |toVolts (fromVolts v vref gain bipolar).toNat vref gain bipolar - v|
      ≤ lsbVolts vref gain bipolar := by
  have hF : (0 : ℚ) < (fullScaleCodes bipolar : ℚ) := by
    cases bipolar <;> norm_num [fullScaleCodes]
  have hne1 : vref ≠ 0 := ne_of_gt hv
  have hne2 : gain ≠ 0 := ne_of_gt hg
  have hne3 : (fullScaleCodes bipolar : ℚ) ≠ 0 := ne_of_gt hF
  have hfloor1 : ((⌊v * gain / vref * (fullScaleCodes bipolar : ℚ)⌋ : ℤ) : ℚ)
      ≤ v * gain / vref * (fullScaleCodes bipolar : ℚ) := Int.floor_le _
  have hfloor2 : v * gain / vref * (fullScaleCodes bipolar : ℚ) - 1
      < ((⌊v * gain / vref * (fullScaleCodes bipolar : ℚ)⌋ : ℤ) : ℚ) :=
    Int.sub_one_lt_floor _
  have h0 : ((fromVolts v vref gain bipolar).toNat : ℤ)
      = fromVolts v vref gain bipolar := Int.toNat_of_nonneg hlo
  have hcast : (((fromVolts v vref gain bipolar).toNat : ℕ) : ℚ)
      = ((⌊v * gain / vref * (fullScaleCodes bipolar : ℚ)⌋ : ℤ) : ℚ)
        + (midScaleOffset bipolar : ℚ) := by
    calc (((fromVolts v vref gain bipolar).toNat : ℕ) : ℚ)
        = ((((fromVolts v vref gain bipolar).toNat : ℕ) : ℤ) : ℚ) := by
          push_cast; ring
      _ = ((fromVolts v vref gain bipolar : ℤ) : ℚ) := by rw [h0]
      _ = _ := by unfold fromVolts; push_cast; ring
  have hmain : toVolts (fromVolts v vref gain bipolar).toNat vref gain bipolar - v
      = (((⌊v * gain / vref * (fullScaleCodes bipolar : ℚ)⌋ : ℤ) : ℚ)
          - v * gain / vref * (fullScaleCodes bipolar : ℚ))
        * (vref / (gain * (fullScaleCodes bipolar : ℚ))) := by
    unfold toVolts
    rw [hcast]
    field_simp
    ring
  have hpos : 0 < vref / (gain * (fullScaleCodes bipolar : ℚ)) :=
    div_pos hv (mul_pos hg hF)
  have habs : |((⌊v * gain / vref * (fullScaleCodes bipolar : ℚ)⌋ : ℤ) : ℚ)
      - v * gain / vref * (fullScaleCodes bipolar : ℚ)| ≤ 1 :=
    abs_le.mpr ⟨by linarith, by linarith⟩
  rw [hmain, abs_mul, abs_of_pos hpos]
  calc |((⌊v * gain / vref * (fullScaleCodes bipolar : ℚ)⌋ : ℤ) : ℚ)
        - v * gain / vref * (fullScaleCodes bipolar : ℚ)|
          * (vref / (gain * (fullScaleCodes bipolar : ℚ)))
      ≤ 1 * (vref / (gain * (fullScaleCodes bipolar : ℚ))) :=
        mul_le_mul_of_nonneg_right habs (le_of_lt hpos)
    _ = lsbVolts vref gain bipolar := by
        rw [one_mul, lsbVolts, div_div]

/-- Witness for C7 at v = 1 V, vref = 4 V, gain = 1, bipolar. -/
theorem toVolts_fromVolts_roundTrip_witness :
    (0 : ℚ) < 4 ∧ (0 : ℚ) < 1
    ∧ 0 ≤ fromVolts 1 4 1 true ∧ fromVolts 1 4 1 true < 2 ^ 24
    ∧ |toVolts (fromVolts 1 4 1 true).toNat 4 1 true - 1| ≤ lsbVolts 4 1 true :=
  ⟨by norm_num,
    by norm_num,
    by norm_num [fromVolts, fullScaleCodes, midScaleOffset],
    by norm_num [fromVolts, fullScaleCodes, midScaleOffset],
    toVolts_fromVolts_roundTrip 1 4 1 true (by norm_num) (by norm_num)
      (by norm_num [fromVolts, fullScaleCodes, midScaleOffset])
      (by norm_num [fromVolts, fullScaleCodes, midScaleOffset])⟩

/-- C9: Type K thermocouple scaling at 0 mV junction voltage and 0 °C
cold junction returns 0 °C; at a nonzero cold-junction temperature the
result shifts by exactly the compensation derived from the cold-junction
temperature's equivalent junction voltage for Type K. -/
theorem scaleTC_typeK_coldJunction :
    scaleTC 0 0 Type_K = 0
    ∧ ∀ v tcj : ℚ, scaleTC v tcj Type_K
        = scaleTC v 0 Type_K + Type_K.VtoT (Type_K.TtoV tcj) := by
  constructor
  · norm_num [scaleTC, Type_K]
  · intro v tcj
    simp only [scaleTC, Type_K]
    ring

/-- Invariant of the continuous-mode collection loop: a returned batch
carries either the channels still owed in the current pass (appended to
what was already collected) or, after a restart, the whole expected
group; and every stored reading is a (tag, code) pair taken from the
stream. -/
theorem contReadAux_ok_inv (group : List ℕ) :
    ∀ (samples : List (ℕ × ℕ)) (es : List ℕ) (acc batch : List Reading)
      (retries : ℕ),
      contReadAux group es acc retries samples = .ok batch →
      (batch.map Reading.ch = acc.map Reading.ch ++ es
          ∨ batch.map Reading.ch = group)
        ∧ ∀ r ∈ batch, r ∈ acc ∨ (r.ch, r.raw) ∈ samples := by
  intro samples
  induction samples with
  | nil =>
    intro es acc batch retries h
    cases es with
    | nil =>
      simp only [contReadAux] at h
      obtain rfl : acc = batch := by simpa using h
      exact ⟨Or.inl (by simp), fun r hr => Or.inl hr⟩
    | cons e es' => simp [contReadAux] at h
  | cons s rest ih =>
    intro es acc batch retries h
    obtain ⟨tag, code⟩ := s
    cases es with
    | nil =>
      simp only [contReadAux] at h
      obtain rfl : acc = batch := by simpa using h
      exact ⟨Or.inl (by simp), fun r hr => Or.inl hr⟩
    | cons e es' =>
      by_cases htag : tag = e
      · simp only [contReadAux, htag, if_pos] at h
        obtain ⟨hmap, hmem⟩ := ih es' (acc ++ [⟨e, code⟩]) batch retries h
        constructor
        · rcases hmap with hmap | hmap
          · left
            rw [hmap]
            simp
          · right
            exact hmap
        · intro r hr
          rcases hmem r hr with hacc | hrest
          · rcases List.mem_append.mp hacc with h1 | h1
            · exact Or.inl h1
            · right
              have : r = (⟨e, code⟩ : Reading) := by simpa using h1
              subst this
              simp [htag]
          · right
            exact List.mem_cons_of_mem _ hrest
      · simp only [contReadAux, htag, if_neg, if_false] at h
        cases retries with
        | zero => simp at h
        | succ r' =>
          obtain ⟨hmap, hmem⟩ := ih group [] batch r' h
          constructor
          · right
            rcases hmap with hmap | hmap
            · simpa using hmap
            · exact hmap
          · intro r hr
            rcases hmem r hr with hacc | hrest
            · simp at hacc
            · right
              exact List.mem_cons_of_mem _ hrest

/-- C1: a continuous-mode batched read never returns a torn batch — any
returned batch carries exactly the expected channel group, in order, with
every value taken from the stream; concretely, a collection that begins
mid-sequence (first sample tagged channel 1 of group [0,1,2]) discards
the partial data and restarts from the next complete pass. -/
theorem contRead_no_torn_batch :
    (∀ (group : List ℕ) (retryBound : ℕ) (samples : List (ℕ × ℕ))
        (batch : List Reading),
      contRead group retryBound samples = .ok batch →
      batch.map Reading.ch = group
        ∧ ∀ r ∈ batch, (r.ch, r.raw) ∈ samples)
    ∧ contRead [0, 1, 2] 2 [(1, 10), (2, 11), (0, 12), (1, 13), (2, 14), (0, 15)]
        = .ok [⟨0, 12⟩, ⟨1, 13⟩, ⟨2, 14⟩] := by
  constructor
  · intro group retryBound samples batch h
    obtain ⟨hmap, hmem⟩ := contReadAux_ok_inv group samples group [] batch retryBound h
    refine ⟨?_, fun r hr => ?_⟩
    · rcases hmap with hmap | hmap
      · simpa using hmap
      · exact hmap
    · rcases hmem r hr with hacc | hs
      · simp at hacc
      · exact hs
  · rfl

/-- Witness for C1: a stream beginning mid-group (tag 1 first) still
yields a batch whose tags are exactly the group, all values from the
stream. -/
theorem contRead_no_torn_batch_witness :
    contRead [0, 1] 1 [(1, 5), (0, 7), (1, 8)] = .ok [⟨0, 7⟩, ⟨1, 8⟩]
    ∧ ([⟨0, 7⟩, ⟨1, 8⟩] : List Reading).map Reading.ch = [0, 1]
    ∧ ∀ r ∈ ([⟨0, 7⟩, ⟨1, 8⟩] : List Reading),
        (r.ch, r.raw) ∈ [(1, 5), (0, 7), (1, 8)] :=
  ⟨rfl,
    (contRead_no_torn_batch.1 [0, 1] 1 [(1, 5), (0, 7), (1, 8)]
      [⟨0, 7⟩, ⟨1, 8⟩] rfl).1,
    (contRead_no_torn_batch.1 [0, 1] 1 [(1, 5), (0, 7), (1, 8)]
      [⟨0, 7⟩, ⟨1, 8⟩] rfl).2⟩

/-- A stream whose leading samples all carry tags outside the expected
group drives the collection loop through one framing discard per sample;
once the retry bound is exhausted the loop stops with `DesyncError`,
regardless of what the rest of the stream holds. -/
theorem contReadAux_desync (group : List ℕ) (hg : group ≠ []) :
    ∀ (bad : List (ℕ × ℕ)) (bound : ℕ) (rest : List (ℕ × ℕ)),
      (∀ s ∈ bad, s.1 ∉ group) → bad.length = bound + 1 →
      contReadAux group group [] bound (bad ++ rest) = .error .DesyncError := by
  intro bad
  induction bad with
  | nil =>
    intro bound rest _ hlen
    simp at hlen
  | cons s bad' ih =>
    intro bound rest hbad hlen
    obtain ⟨tag, code⟩ := s
    obtain ⟨e, es, rfl⟩ : ∃ e es, group = e :: es := by
      cases group with
      | nil => exact absurd rfl hg
      | cons e es => exact ⟨e, es, rfl⟩
    have htag : tag ≠ e := by
      intro hEq
      exact hbad (tag, code) (List.mem_cons_self _ _) (hEq ▸ List.mem_cons_self _ _)
    cases bound with
    | zero =>
      simp only [List.cons_append, contReadAux, htag, if_neg, if_false]
    | succ b =>
      simp only [List.cons_append, contReadAux, htag, if_neg, if_false]
      exact ih b rest (fun x hx => hbad x (List.mem_cons_of_mem _ hx))
        (by simpa using hlen)

/-- A stream aligned with the expected pass is collected in full, one
sample per expected channel, leaving any remaining stream untouched. -/
theorem contReadAux_aligned (group : List ℕ) :
    ∀ (es : List ℕ) (acc : List Reading) (retries : ℕ) (f : ℕ → ℕ)
      (rest : List (ℕ × ℕ)),
      contReadAux group es acc retries ((es.map fun c => (c, f c)) ++ rest)
        = .ok (acc ++ es.map fun c => ⟨c, f c⟩) := by
  intro es
  induction es with
  | nil =>
    intro acc retries f rest
    simp [contReadAux]
  | cons e es' ih =>
    intro acc retries f rest
    simp only [List.map_cons, List.cons_append, List.append_eq, contReadAux, if_pos]
    rw [ih (acc ++ [Reading.mk e (f e)]) retries f rest]
    simp

/-- C4: framing discards in a continuous-mode batched read are bounded —
a stream carrying one more mismatched sample than the retry bound makes
the call terminate with the distinct `DesyncError`, regardless of the
remaining stream; and the error is fatal only to that call, not to the
session: the same read retried on an aligned stream succeeds. -/
theorem contRead_desync_bounded :
    (∀ (group : List ℕ) (retryBound : ℕ) (bad rest : List (ℕ × ℕ)),
        group ≠ [] → (∀ s ∈ bad, s.1 ∉ group) →
        bad.length = retryBound + 1 →
        contRead group retryBound (bad ++ rest) = .error .DesyncError)
    ∧ (∀ (group : List ℕ) (retryBound : ℕ) (f : ℕ → ℕ),
        contRead group retryBound (group.map fun c => (c, f c))
          = .ok (group.map fun c => ⟨c, f c⟩)) := by
  constructor
  · intro group retryBound bad rest hg hbad hlen
    exact contReadAux_desync group hg bad retryBound rest hbad hlen
  · intro group retryBound f
    have := contReadAux_aligned group group [] retryBound f []
    simpa using this

/-- Witness for C4: group [0,1] with retry bound 2 and three mismatched
samples desynchronizes with `DesyncError`; the retried call on an aligned
stream succeeds. -/
theorem contRead_desync_bounded_witness :
    ([0, 1] : List ℕ) ≠ []
    ∧ (∀ s ∈ ([(7, 20), (7, 21), (7, 22)] : List (ℕ × ℕ)), s.1 ∉ ([0, 1] : List ℕ))
    ∧ ([(7, 20), (7, 21), (7, 22)] : List (ℕ × ℕ)).length = 2 + 1
    ∧ contRead [0, 1] 2 ([(7, 20), (7, 21), (7, 22)] ++ [(0, 30), (1, 31)])
        = .error .DesyncError
    ∧ contRead [0, 1] 2 ([0, 1].map fun c => (c, 40 + c))
        = .ok ([0, 1].map fun c => ⟨c, 40 + c⟩) :=
  ⟨by decide, by decide, by decide,
    contRead_desync_bounded.1 [0, 1] 2 [(7, 20), (7, 21), (7, 22)]
      [(0, 30), (1, 31)] (by decide) (by decide) (by decide),
    contRead_desync_bounded.2 [0, 1] 2 (fun c => 40 + c)⟩

/-- C3: a data-ready signal that never asserts within the timeout bound
makes the read return `TimeoutError` with no partial data, leaving the
controller in `Idle`; the timeout is recoverable — the next read on the
same controller, whose data-ready asserts within the bound, succeeds. -/
theorem singleShotRead_timeout_idle (timeout : ℕ) (drdy : ℕ → Bool)
    (sample : ℕ × ℕ) (h : ∀ i, i < timeout → drdy i = false) :
    singleShotRead timeout drdy sample = (.error .TimeoutError, .Idle)
    ∧ ∀ (drdyNext : ℕ → Bool) (j : ℕ), j < timeout → drdyNext j = true →
        (singleShotRead timeout drdyNext sample).1 = .ok ⟨sample.1, sample.2⟩
        ∧ (singleShotRead timeout drdyNext sample).2 = .Idle := by
  have hp : pollDataReady timeout drdy = none := by
    unfold pollDataReady
    rw [List.find?_eq_none]
    intro x hx
    simp only [List.mem_range] at hx
    simp [h x hx]
  constructor
  · unfold singleShotRead
    rw [hp]
  · intro drdyNext j hj htrue
    have hs : (pollDataReady timeout drdyNext).isSome := by
      unfold pollDataReady
      rw [List.find?_isSome]
      exact ⟨j, List.mem_range.mpr hj, htrue⟩
    obtain ⟨k, hk⟩ := Option.isSome_iff_exists.mp hs
    unfold singleShotRead
    rw [hk]
    exact ⟨rfl, rfl⟩

/-- Witness for C3: a 2-poll timeout with data-ready stuck low returns
`TimeoutError` in `Idle`; a follow-up read whose data-ready asserts at
poll 1 succeeds. -/
theorem singleShotRead_timeout_idle_witness :
    (∀ i, i < 2 → (fun _ : ℕ => false) i = false)
    ∧ singleShotRead 2 (fun _ => false) (3, 42) = (.error .TimeoutError, .Idle)
    ∧ (singleShotRead 2 (fun i => i == 1) (3, 42)).1 = .ok ⟨3, 42⟩
    ∧ (singleShotRead 2 (fun i => i == 1) (3, 42)).2 = .Idle :=
  ⟨by decide,
    (singleShotRead_timeout_idle 2 (fun _ => false) (3, 42) (by decide)).1,
    ((singleShotRead_timeout_idle 2 (fun _ => false) (3, 42) (by decide)).2
      (fun i => i == 1) 1 (by decide) (by decide)).1,
    ((singleShotRead_timeout_idle 2 (fun _ => false) (3, 42) (by decide)).2
      (fun i => i == 1) 1 (by decide) (by decide)).2⟩

/-- The single-conversion cadence returns exactly the requested channels'
codes, tagged with the triggered channel. -/
theorem singleConvBatchRead_fst (chans : List ℕ) :
    ∀ d : SingleConvDev,
      (singleConvBatchRead chans d).1 = chans.map fun c => ⟨c, d.codes c⟩ := by
  induction chans with
  | nil => intro d; rfl
  | cons c cs ih =>
    intro d
    simp only [singleConvBatchRead, List.map_cons]
    rw [ih (trigger d c)]
    rfl

/-- The single-conversion cadence issues exactly one trigger per
requested channel, in request order. -/
theorem singleConvBatchRead_triggers (chans : List ℕ) :
    ∀ d : SingleConvDev,
      ((singleConvBatchRead chans d).2).triggers = d.triggers ++ chans := by
  induction chans with
  | nil => intro d; simp [singleConvBatchRead]
  | cons c cs ih =>
    intro d
    simp only [singleConvBatchRead]
    rw [ih (trigger d c)]
    simp [trigger]

/-- C8: in single-conversion cadence the controller issues one explicit
trigger per requested channel, in request order, and every retrieved
datum is tagged with — and is the code of — the channel just triggered,
so framing is correct with no discard path. -/
theorem singleConv_framing_correct (chans : List ℕ) (d : SingleConvDev) :
    ((singleConvBatchRead chans d).2).triggers = d.triggers ++ chans
    ∧ ((singleConvBatchRead chans d).1).map Reading.ch = chans
    ∧ (singleConvBatchRead chans d).1 = chans.map fun c => ⟨c, d.codes c⟩ := by
  refine ⟨singleConvBatchRead_triggers chans d, ?_, singleConvBatchRead_fst chans d⟩
  rw [singleConvBatchRead_fst chans d, List.map_map]
  show List.map (fun c => c) chans = chans
  simp

/-- C5: `setChannel` with a setup index outside the Setup Registry's
range [0,8) or a channel index outside [0,16) returns
`ConfigurationError` and leaves the driver state — including the bus
transaction trace — untouched. -/
theorem setChannel_invalid_no_bus (st : Ad7124) (ch setupIdx : ℕ)
    (ainp ainm : Pin) (enabled : Bool)
    (h : 8 ≤ setupIdx ∨ 16 ≤ ch) :
    (setChannel st ch setupIdx ainp ainm enabled).1 = .error .ConfigurationError
    ∧ (setChannel st ch setupIdx ainp ainm enabled).2 = st := by
  have hcond : ¬(ch < 16 ∧ setupIdx < 8 ∧ ainp.valid ∧ ainm.valid) := by
    rintro ⟨h1, h2, -, -⟩
    rcases h with h | h <;> omega
  unfold setChannel
  rw [if_neg hcond]
  exact ⟨rfl, rfl⟩

/-- Witness for C5: setup index 9 (out of range) on the blank state is
rejected with `ConfigurationError` and zero bus transactions. -/
theorem setChannel_invalid_no_bus_witness :
    (8 ≤ 9 ∨ 16 ≤ 0)
    ∧ (setChannel initState 0 9 (.AIN 0) (.AIN 1) true).1
        = .error .ConfigurationError
    ∧ (setChannel initState 0 9 (.AIN 0) (.AIN 1) true).2 = initState :=
  ⟨Or.inl (by norm_num),
    (setChannel_invalid_no_bus initState 0 9 (.AIN 0) (.AIN 1) true
      (Or.inl (by norm_num))).1,
    (setChannel_invalid_no_bus initState 0 9 (.AIN 0) (.AIN 1) true
      (Or.inl (by norm_num))).2⟩

/-- Scaling a retrieved sample keeps its channel identity. -/
theorem scaleReading_ch (st : Ad7124) (r : Reading) :
    (scaleReading st r).ch = r.ch := by
  unfold scaleReading
  by_cases h : (st.channels r.ch).ainp = Pin.TEMP <;> simp [h]

/-- `readVolts` is the scaled image of one sample per requested channel:
the first `count` enabled channels, in channel-index order. -/
theorem readVolts_eq (st : Ad7124) (codes : ℕ → ℕ) (count : ℕ) :
    readVolts st codes count
      = ((enabledChans st).take count).map
          (fun c => scaleReading st ⟨c, codes c⟩) := by
  unfold readVolts
  rw [singleConvBatchRead_fst, List.map_map]
  rfl

/-- The channel tags `readVolts` fills are the first `count` enabled
channels, in channel-index order. -/
theorem readVolts_tags (st : Ad7124) (codes : ℕ → ℕ) (count : ℕ) :
    (readVolts st codes count).map Ad7124_Readings.ch
      = (enabledChans st).take count := by
  rw [readVolts_eq, List.map_map]
  have hcomp : (Ad7124_Readings.ch ∘ fun c => scaleReading st ⟨c, codes c⟩)
      = fun c => c := by
    funext c
    exact scaleReading_ch st ⟨c, codes c⟩
  rw [hcomp]
  simp

/-- C2 counterexample: the multi-channel `readVolts` of the public API
(the form the sketch calls: a result buffer and a count) cannot honor an
arbitrary caller-chosen channel order — no call fills the slots in the
order channel 1 then channel 0, because the filled tags always follow
hardware channel-index order. -/
theorem readVolts_not_caller_order :
    ¬∃ (st : Ad7124) (codes : ℕ → ℕ) (count : ℕ),
      (readVolts st codes count).map Ad7124_Readings.ch = [1, 0] := by
  rintro ⟨st, codes, count, h⟩
  rw [readVolts_tags] at h
  have hsorted : ((enabledChans st).take count).Pairwise (· < ·) := by
    have h1 : (List.range 16).Pairwise (· < ·) := List.pairwise_lt_range 16
    have h2 : (enabledChans st).Pairwise (· < ·) := h1.filter _
    exact h2.sublist (List.take_sublist count _)
  rw [h] at hsorted
  have : (1 : ℕ) < 0 := by
    have := List.pairwise_cons.mp hsorted
    exact this.1 0 (by simp)
  omega

/-- C2 (amended): the multi-channel batched `readVolts` takes a
caller-supplied result buffer and a channel count; its filled slots
correspond 1:1 to the first `count` enabled channels in channel-index
order, each slot's channel tag equal to that slot's channel and each
slot's value derived from that same channel's sample. -/
theorem readVolts_slot_order (st : Ad7124) (codes : ℕ → ℕ) (count : ℕ) :
    readVolts st codes count
      = ((enabledChans st).take count).map
          (fun c => scaleReading st ⟨c, codes c⟩)
    ∧ (readVolts st codes count).map Ad7124_Readings.ch
        = (enabledChans st).take count := by
  exact ⟨readVolts_eq st codes count, readVolts_tags st codes count⟩

/-- Filtering an initial-segment predicate out of `List.range`. -/
theorem filter_range_lt (m n : ℕ) (hn : n ≤ m) :
    (List.range m).filter (fun i => decide (i < n)) = List.range n := by
  induction m with
  | zero =>
    obtain rfl : n = 0 := Nat.le_zero.mp hn
    rfl
  | succ m ih =>
    by_cases hnm : n ≤ m
    · rw [List.range_succ, List.filter_append, ih hnm]
      have hlast : List.filter (fun i => decide (i < n)) [m] = [] := by
        simp [List.filter, Nat.not_lt.mpr hnm]
      rw [hlast, List.append_nil]
    · obtain rfl : n = m + 1 := by omega
      apply List.filter_eq_self.mpr
      intro a ha
      simpa using List.mem_range.mp ha

/-- When exactly the channels below `n` are enabled, the enabled-channel
group is `0, …, n−1` in order. -/
theorem enabledChans_of_firstN (st : Ad7124) (n : ℕ) (hn : n ≤ 16)
    (hen : ∀ i, i < 16 → (st.channels i).enabled = decide (i < n)) :
    enabledChans st = List.range n := by
  unfold enabledChans
  have hcongr : (List.range 16).filter (fun i => (st.channels i).enabled)
      = (List.range 16).filter (fun i => decide (i < n)) :=
    List.filter_congr (fun i hi => hen i (List.mem_range.mp hi))
  rw [hcongr, filter_range_lt 16 n hn]

/-- C10: the public multi-channel `readVolts` takes a result buffer and a
count only; with exactly the first `n` channel-table entries enabled,
slot `i` receives channel `i`'s reading, tagged with channel `i`, where a
channel on the internal temperature input keeps its raw ADC counts and
every other channel is scaled to volts by its setup. -/
theorem readVolts_buffer_slots (st : Ad7124) (codes : ℕ → ℕ) (n : ℕ)
    (hn : n ≤ 16)
    (hen : ∀ i, i < 16 → (st.channels i).enabled = decide (i < n)) :
    readVolts st codes n = (List.range n).map (fun i =>
      if (st.channels i).ainp = Pin.TEMP then
        ⟨i, (codes i : ℚ)⟩
      else
        ⟨i, toVolts (codes i) (st.setups (st.channels i).setupIdx).refV
              (st.setups (st.channels i).setupIdx).gain
              (st.setups (st.channels i).setupIdx).bipolar⟩) := by
  rw [readVolts_eq, enabledChans_of_firstN st n hn hen]
  have htake : (List.range n).take n = List.range n := by
    simp [List.take_range]
  rw [htake]
  apply List.map_congr_left
  intro i _
  unfold scaleReading
  by_cases h : (st.channels i).ainp = Pin.TEMP <;> simp [h]

/-- Witness for C10: the sketch's own configuration (six enabled
channels, channel 5 on the internal temperature input) read with a mock
code map; channel 5's slot keeps raw counts. -/
theorem readVolts_buffer_slots_witness :
    6 ≤ 16
    ∧ (∀ i, i < 16 → (exampleState.channels i).enabled = decide (i < 6))
    ∧ readVolts exampleState (fun c => 2 ^ 23 + c) 6
        = (List.range 6).map (fun i =>
            if (exampleState.channels i).ainp = Pin.TEMP then
              ⟨i, ((2 ^ 23 + i : ℕ) : ℚ)⟩
            else
              ⟨i, toVolts (2 ^ 23 + i)
                    (exampleState.setups (exampleState.channels i).setupIdx).refV
                    (exampleState.setups (exampleState.channels i).setupIdx).gain
                    (exampleState.setups (exampleState.channels i).setupIdx).bipolar⟩) :=
  ⟨by norm_num, by decide,
    readVolts_buffer_slots exampleState (fun c => 2 ^ 23 + c) 6
      (by norm_num) (by decide)⟩

end NHB_AD7124
